import Mathlib

/-!
Shallow embedding of `cursor/wayland-cursor.c` (wayland cursor library):
the shm pool bump allocator, the cursor/theme object model built during
theme load, and the animation frame-selection algorithm, together with
theorems checking the specification's claims against them.

Machine integers: the C code stores sizes and delays in `unsigned int` /
`uint32_t`.  Where the C arithmetic can wrap and the wrap is semantically
relevant (the `total_delay` accumulation and the `t - delay < t`
termination test of `wl_cursor_frame`) we model it explicitly modulo
`2^32`; pool sizes are modelled as exact naturals.
-/

/-- `2^32`, the modulus of `uint32_t` arithmetic. -/
def uint32Mod : Nat := 4294967296

/-- Wrapping `uint32_t` subtraction: `(a - b) mod 2^32` for `a < 2^32`. -/
def usub32 (a b : Nat) : Nat :=
  (a + (uint32Mod - b % uint32Mod)) % uint32Mod

/-- Conversion of an `unsigned int` value to `int` (two's complement, as
on every platform this code targets): values at or above `2^31` become
negative. -/
def toInt32 (u : Nat) : Int :=
  if u % uint32Mod < 2147483648 then ((u % uint32Mod : Nat) : Int)
  else ((u % uint32Mod : Nat) : Int) - (uint32Mod : Int)

/-- `struct shm_pool` (wayland-cursor.c:36): the growable shared-memory
region.  `size` is the current capacity in bytes, `used` the bytes handed
out, `data` the byte contents of the mapped region (length = `size`).
The external `wl_shm_pool` handle and the fd are opaque and not modelled. -/
structure shm_pool where
  size : Nat
  used : Nat
  data : List Nat
  deriving Repr, DecidableEq

/-- Contents of the backing file after `ftruncate` to `n` bytes and remap:
the old bytes survive up to `n`, extension bytes read as zero. -/
def resizeData (d : List Nat) (n : Nat) : List Nat :=
  d.take n ++ List.replicate (n - d.length) 0

/-- `shm_pool_resize` (wayland-cursor.c:76): the `size` parameter is a C
`int`, modelled as `Int`.  `ftruncate` deterministically fails on a
negative length (`EINVAL`); for a nonnegative length `ok` resolves its
outcome.  On failure the function returns 0 leaving the pool untouched
(modelled as `none`); on success it remaps and stores the (unsigned)
new size. -/
def shm_pool_resize (pool : shm_pool) (newSize : Int) (ok : Bool) :
    Option shm_pool :=
  if ok ∧ 0 ≤ newSize then
    some { size := newSize.toNat, used := pool.used,
           data := resizeData pool.data newSize.toNat }
  else
    none

/-- Result of `shm_pool_allocate`: the updated pool, the returned offset
(`-1` on failure, as in the C code), and the number of `shm_pool_resize`
calls performed during this allocation. -/
structure AllocResult where
  pool : shm_pool
  offset : Int
  resizes : Nat
  deriving Repr, DecidableEq

/-- `shm_pool_allocate` (wayland-cursor.c:93).  `size` and `used` are
`unsigned int`, so the growth test `used + s > size` and the growth
request `2*size + s` are computed mod `2^32`; the request is then
truncated to `int` (`shm_pool_resize`'s parameter) and the returned
offset is the `int` conversion of `used`.  `ok` resolves the
`ftruncate` outcome of the (at most one) resize. -/
def shm_pool_allocate (pool : shm_pool) (s : Nat) (ok : Bool) : AllocResult :=
  if (pool.used + s) % uint32Mod > pool.size then
    match shm_pool_resize pool (toInt32 (2 * pool.size + s)) ok with
    | none => ⟨pool, -1, 1⟩
    | some p => ⟨{ p with used := (p.used + s) % uint32Mod }, toInt32 p.used, 1⟩
  else
    ⟨{ pool with used := (pool.used + s) % uint32Mod }, toInt32 pool.used, 0⟩

/-- `shm_pool_create` (wayland-cursor.c:44): fresh pool of `size` bytes,
`used = 0`, backed by a freshly created zero-filled anonymous file. -/
def shm_pool_create (size : Nat) : shm_pool :=
  ⟨size, 0, List.replicate size 0⟩

/-- A sequence of allocations, all of whose resizes succeed; returns the
final pool and the list of returned offsets. -/
def allocSeq (pool : shm_pool) (sizes : List Nat) : shm_pool × List Int :=
  match sizes with
  | [] => (pool, [])
  | s :: rest =>
      let r := shm_pool_allocate pool s true
      let rest' := allocSeq r.pool rest
      (rest'.1, r.offset :: rest'.2)

/-- No step of the allocation run overflows the pool's 32-bit
arithmetic: each allocation either fits in the current capacity or its
growth request `2*capacity + s` stays below `2^31` (so it neither wraps
in `unsigned int` nor turns negative as the `int` handed to
`ftruncate`). -/
def noWrapSeq : shm_pool → List Nat → Bool
  | _, [] => true
  | pool, s :: rest =>
      (decide (pool.used + s ≤ pool.size) ||
        decide (2 * pool.size + s < 2147483648)) &&
      noWrapSeq (shm_pool_allocate pool s true).pool rest

/-- Overwrite `data[off + i] := src[i]` for each byte of `src`
(out-of-range indices are left to `List.set`, which ignores them). -/
def writeBytes : List Nat → Nat → List Nat → List Nat
  | data, _, [] => data
  | data, off, b :: bs => writeBytes (data.set off b) (off + 1) bs

/-- The `memcpy(pool->data + offset, src, len)` of the cursor loader.  A
negative offset (the unchecked `-1` failure return of
`shm_pool_allocate`) is an out-of-bounds write — undefined behavior in
the C program; the model leaves the region unchanged there. -/
def memcpyAt (data : List Nat) (off : Int) (src : List Nat) : List Nat :=
  if off < 0 then data else writeBytes data off.toNat src

/-- `struct wl_cursor_image` (public header): per-frame metadata. -/
structure wl_cursor_image where
  width : Nat
  height : Nat
  hotspot_x : Nat
  hotspot_y : Nat
  delay : Nat
  deriving Repr, DecidableEq

/-- `struct cursor_image` (wayland-cursor.c:127): the public image plus
the lazily created buffer handle and the data offset in the shm pool.
The back-reference to the theme is not modelled. -/
structure cursor_image where
  image : wl_cursor_image
  buffer : Option Nat
  offset : Int
  deriving Repr, DecidableEq

/-- `struct wl_cursor` (public header): a named frame sequence. -/
structure wl_cursor where
  name : String
  images : List cursor_image
  deriving Repr, DecidableEq

/-- `struct cursor` (wayland-cursor.c:134): the public cursor plus the
accumulated animation length in ms (a `uint32_t`). -/
structure cursor where
  cursor : wl_cursor
  total_delay : Nat
  deriving Repr, DecidableEq

/-- `cursor->cursor.image_count`. -/
def imageCount (c : cursor) : Nat := c.cursor.images.length

/-- The per-frame delays `images[i]->delay`, in presentation order. -/
def delays (c : cursor) : List Nat :=
  c.cursor.images.map fun ci => ci.image.delay

/-- The frame-walk loop of `wl_cursor_frame` (wayland-cursor.c:427):
`while (t - images[i]->delay < t) t -= images[i++]->delay;` with
`uint32_t` wraparound.  Walking past the last frame reads
`images[image_count]` out of bounds, modelled as `none`. -/
def frameLoop : List Nat → Nat → Nat → Option Nat
  | [], _, _ => none
  | d :: ds, t, i =>
      if usub32 t d < t then frameLoop ds (usub32 t d) (i + 1) else some i

/-- `wl_cursor_frame` (wayland-cursor.c:414).  A single-frame cursor
returns 0 immediately; otherwise `t = time % total_delay` (the C `%` on
a zero `total_delay` is undefined, modelled as `none`) and the loop
walks the frames. -/
def wl_cursor_frame (c : cursor) (time : Nat) : Option Nat :=
  if imageCount c = 1 then some 0
  else if c.total_delay = 0 then none
  else frameLoop (delays c) (time % c.total_delay) 0

/-- The specification's reference frame-selection algorithm, written
exactly as the spec states it: with `cum` starting at 0, return the
first index `i` with `t < cum + delay_i`, otherwise add `delay_i` to
`cum` and continue. -/
def refGo : List Nat → Nat → Nat → Nat → Option Nat
  | [], _, _, _ => none
  | d :: ds, t, cum, i =>
      if t < cum + d then some i else refGo ds t (cum + d) (i + 1)

/-- Reference algorithm entry point: `refFrame ds t` is the frame chosen
for residual time `t` within one animation period. -/
def refFrame (ds : List Nat) (t : Nat) : Option Nat := refGo ds t 0 0

/-- Subtractive form of the reference walk, the bridge between the exact
`cum`-based reference and the wrapping C loop. -/
def subLoop : List Nat → Nat → Nat → Option Nat
  | [], _, _ => none
  | d :: ds, t, i => if t < d then some i else subLoop ds (t - d) (i + 1)

/-- One decoded frame as reported by the external xcursor loader
(`XcursorImage`): dimensions, hotspot, delay and raw pixel bytes. -/
structure XcursorImage where
  width : Nat
  height : Nat
  xhot : Nat
  yhot : Nat
  delay : Nat
  pixels : List Nat
  deriving Repr, DecidableEq

/-- `XcursorImages`: one decoded cursor reported by the loader, a name
plus its ordered frames. -/
structure XcursorImages where
  name : String
  images : List XcursorImage
  deriving Repr, DecidableEq

/-- The per-frame body of the loop in `wl_cursor_create_from_xcursor_images`
(wayland-cursor.c:274): build each `cursor_image`, accumulate
`total_delay` in `uint32_t`, allocate `width*height*4` pool bytes and
copy the pixels to the allocated offset — the `-1` failure return of
`shm_pool_allocate` is not checked, exactly as in the C code.  `ok i`
resolves the `ftruncate` outcome if frame `i`'s allocation needs growth. -/
def buildImages (pool : shm_pool) (imgs : List XcursorImage)
    (ok : Nat → Bool) (idx : Nat) (total : Nat) :
    List cursor_image × Nat × shm_pool :=
  match imgs with
  | [] => ([], total, pool)
  | im :: rest =>
      let total' := (total + im.delay) % uint32Mod
      let sz := im.width * im.height * 4
      let r := shm_pool_allocate pool sz (ok idx)
      let pool' : shm_pool :=
        { r.pool with data := memcpyAt r.pool.data r.offset im.pixels }
      let ci : cursor_image :=
        ⟨⟨im.width, im.height, im.xhot, im.yhot, im.delay⟩, none, r.offset⟩
      let rest' := buildImages pool' rest ok (idx + 1) total'
      (ci :: rest'.1, rest'.2.1, rest'.2.2)

/-- `wl_cursor_create_from_xcursor_images` (wayland-cursor.c:251): wraps
the loader's report into a `cursor`, threading the theme's pool through
the per-frame allocations.  The in-process `malloc` failure paths (which
return NULL before touching the pool) are not modelled. -/
def wl_cursor_create_from_xcursor_images (images : XcursorImages)
    (pool : shm_pool) (ok : Nat → Bool) : cursor × shm_pool :=
  let r := buildImages pool images.images ok 0 0
  (⟨⟨images.name, r.1⟩, r.2.1⟩, r.2.2)

/-- Result of `wl_cursor_image_get_buffer`: the returned handle, the
updated image, the shared-memory service's next fresh handle, and the
number of `wl_shm_pool_create_buffer` requests issued by this call. -/
structure GetBufferResult where
  buffer : Nat
  image : cursor_image
  nextHandle : Nat
  created : Nat
  deriving Repr, DecidableEq

/-- `wl_cursor_image_get_buffer` (wayland-cursor.c:145): create the
buffer through the shm service on first use and cache it; afterwards
return the cached handle.  The external service is modelled as a counter
`next` handing out fresh handles. -/
def wl_cursor_image_get_buffer (img : cursor_image) (next : Nat) :
    GetBufferResult :=
  match img.buffer with
  | some b => ⟨b, img, next, 0⟩
  | none => ⟨next, { img with buffer := some next }, next + 1, 1⟩

/-- `struct wl_cursor_theme` (wayland-cursor.c:118).  The `wl_shm`
handle is opaque and not modelled. -/
structure wl_cursor_theme where
  name : String
  size : Nat
  cursor_count : Nat
  cursors : List cursor
  pool : shm_pool
  deriving Repr, DecidableEq

/-- `wl_cursor_theme_get_cursor` (wayland-cursor.c:392): first cursor
whose name matches exactly, else none. -/
def wl_cursor_theme_get_cursor (theme : wl_cursor_theme) (name : String) :
    Option cursor :=
  theme.cursors.find? fun c => c.cursor.name == name

/-- `load_callback` (wayland-cursor.c:298): skip the report if a cursor
of that name already exists, otherwise build the cursor and append it to
the theme's cursor array (the `realloc`-and-store of the C code). -/
def load_callback (images : XcursorImages) (theme : wl_cursor_theme)
    (ok : Nat → Bool) : wl_cursor_theme :=
  match wl_cursor_theme_get_cursor theme images.name with
  | some _ => theme
  | none =>
      let r := wl_cursor_create_from_xcursor_images images theme.pool ok
      { theme with
          pool := r.2,
          cursor_count := theme.cursor_count + 1,
          cursors := theme.cursors ++ [r.1] }

/-- Modelled from the spec: the external theme loader
(`xcursor_load_theme`, not part of this source file) invokes the
callback once per discovered cursor; here it delivers a given finite
list of reports to `load_callback` in order, with every pool resize
succeeding. -/
def xcursor_load_theme (reports : List XcursorImages)
    (theme : wl_cursor_theme) : wl_cursor_theme :=
  reports.foldl (fun th r => load_callback r th (fun _ => true)) theme

/-- The theme state of `wl_cursor_theme_load` (wayland-cursor.c:334)
after the loader has delivered all its reports: an initially empty theme
with a `size*size*4`-byte pool, fed to the loader.  The default-theme
fallback (taken only when zero cursors were loaded) is outside the
claims considered here and omitted. -/
def themeAfterLoad (name : String) (size : Nat)
    (reports : List XcursorImages) : wl_cursor_theme :=
  xcursor_load_theme reports
    ⟨name, size, 0, [], shm_pool_create (size * size * 4)⟩

/-- The per-frame metadata of a built cursor:
(width, height, hotspot_x, hotspot_y, delay) per frame. -/
def frameMeta (c : cursor) : List (Nat × Nat × Nat × Nat × Nat) :=
  c.cursor.images.map fun ci =>
    (ci.image.width, ci.image.height,
     ci.image.hotspot_x, ci.image.hotspot_y, ci.image.delay)

/-- The per-frame metadata of a loader report, in the same shape. -/
def reportMeta (r : XcursorImages) : List (Nat × Nat × Nat × Nat × Nat) :=
  r.images.map fun im => (im.width, im.height, im.xhot, im.yhot, im.delay)

/-- A cursor literal with the given frame delays and `total_delay`
field, used to instantiate the frame-selection claims. -/
def mkCursor (ds : List Nat) (td : Nat) : cursor :=
  ⟨⟨"cursor", ds.map fun d => ⟨⟨1, 1, 0, 0, d⟩, none, 0⟩⟩, td⟩

/-- A pool state near the top of the `unsigned int` range: capacity
`2147395600 = 23170*23170*4` (creatable by `wl_cursor_theme_load` with
`size = 23170`), with 2147300000 bytes already handed out and every
mapped byte written to 9. -/
def wrapPool : shm_pool :=
  ⟨2147395600, 2147300000, List.replicate 2147395600 9⟩

/-- A theme whose pool cannot hold one 2x2 frame, for exercising a
failed frame allocation during load. -/
def failTheme : wl_cursor_theme := ⟨"default", 1, 0, [], shm_pool_create 4⟩

/-- A loader report with a single 2x2 frame (16 bytes of pixels). -/
def failReport : XcursorImages :=
  ⟨"left_ptr", [⟨2, 2, 0, 0, 0, List.replicate 16 7⟩]⟩

/-- A loader report with two frames that both declare a zero delay. -/
def zeroDelayImages : XcursorImages :=
  ⟨"watch", [⟨1, 1, 0, 0, 0, [0, 0, 0, 0]⟩, ⟨1, 1, 0, 0, 0, [0, 0, 0, 0]⟩]⟩

/-- First of two same-named loader reports. -/
def repA : XcursorImages := ⟨"left_ptr", [⟨1, 1, 0, 0, 10, [1, 2, 3, 4]⟩]⟩

/-- Second of two same-named loader reports, with different data. -/
def repB : XcursorImages := ⟨"left_ptr", [⟨1, 1, 0, 0, 20, [5, 6, 7, 8]⟩]⟩

theorem usub32_eq_sub (t d : Nat) (ht : t < uint32Mod) (hd : d < uint32Mod)
    (hle : d ≤ t) : usub32 t d = t - d := by
  unfold usub32 uint32Mod at *
  omega

theorem usub32_lt_iff (t d : Nat) (ht : t < uint32Mod) (hd : d < uint32Mod) :
    usub32 t d < t ↔ 0 < d ∧ d ≤ t := by
  unfold usub32 uint32Mod at *
  omega

/-- With every delay positive (and representable), the wrapping C loop
agrees with the exact subtractive walk. -/
theorem frameLoop_eq_subLoop (ds : List Nat) (t i : Nat) (ht : t < uint32Mod)
    (hd : ∀ d ∈ ds, 0 < d ∧ d < uint32Mod) :
    frameLoop ds t i = subLoop ds t i := by
  induction ds generalizing t i with
  | nil => rfl
  | cons d ds ih =>
    have hdd := hd d (by simp)
    have hiff := usub32_lt_iff t d ht hdd.2
    by_cases hc : d ≤ t
    · have h1 : usub32 t d < t := hiff.mpr ⟨hdd.1, hc⟩
      have h2 : usub32 t d = t - d := usub32_eq_sub t d ht hdd.2 hc
      have h3 : ¬ t < d := by omega
      rw [frameLoop, subLoop, if_pos h1, if_neg h3, h2]
      exact ih (t - d) (i + 1) (by omega) (fun x hx => hd x (by simp [hx]))
    · have h1 : ¬ usub32 t d < t := by rw [hiff]; omega
      rw [frameLoop, subLoop, if_neg h1, if_pos (by omega)]

/-- The spec's `cum`-accumulating walk equals the subtractive walk. -/
theorem refGo_eq_subLoop (ds : List Nat) (t : Nat) :
    ∀ cum i, cum ≤ t → refGo ds t cum i = subLoop ds (t - cum) i := by
  induction ds with
  | nil => intro cum i _; rfl
  | cons d ds ih =>
    intro cum i h
    by_cases hc : t < cum + d
    · rw [refGo, subLoop, if_pos hc, if_pos (by omega)]
    · rw [refGo, subLoop, if_neg hc, if_neg (by omega)]
      rw [ih (cum + d) (i + 1) (by omega)]
      congr 1
      omega

/-- The wrapping loop returns an in-range index whenever the residual
time is below the (exact) sum of the delays. -/
theorem frameLoop_some_lt (ds : List Nat) :
    ∀ t i, (∀ d ∈ ds, d < uint32Mod) → t < uint32Mod → t < ds.sum →
      ∃ j, frameLoop ds t i = some j ∧ j < i + ds.length := by
  induction ds with
  | nil => intro t i _ _ hsum; simp at hsum
  | cons d ds ih =>
    intro t i hd ht hsum
    have hdd := hd d (by simp)
    by_cases hc : usub32 t d < t
    · have h2 : 0 < d ∧ d ≤ t := (usub32_lt_iff t d ht hdd).mp hc
      have heq : usub32 t d = t - d := usub32_eq_sub t d ht hdd h2.2
      have hsum' : t - d < ds.sum := by
        simp only [List.sum_cons] at hsum; omega
      obtain ⟨j, hj1, hj2⟩ :=
        ih (t - d) (i + 1) (fun x hx => hd x (by simp [hx])) (by omega) hsum'
      refine ⟨j, ?_, ?_⟩
      · rw [frameLoop, if_pos hc, heq]; exact hj1
      · simp only [List.length_cons]; omega
    · refine ⟨i, ?_, ?_⟩
      · rw [frameLoop, if_neg hc]
      · simp only [List.length_cons]; omega

/-- C1 (amended): for every cursor with more than one frame, positive
`total_delay`, and all frame delays strictly positive (delays and
`total_delay` being representable `uint32_t` values), `wl_cursor_frame`
computes exactly the spec's reference algorithm on
`t = elapsed_ms mod total_delay`. -/
theorem C1_frame_matches_reference (c : cursor) (time : Nat)
    (h1 : 1 < imageCount c) (h2 : 0 < c.total_delay)
    (h3 : c.total_delay < uint32Mod)
    (hd : ∀ d ∈ delays c, 0 < d ∧ d < uint32Mod) :
    wl_cursor_frame c time = refFrame (delays c) (time % c.total_delay) := by
  have hne : ¬ imageCount c = 1 := by omega
  have ht : time % c.total_delay < uint32Mod :=
    lt_of_lt_of_le (Nat.mod_lt _ h2) (le_of_lt h3)
  rw [wl_cursor_frame, if_neg hne, if_neg (by omega)]
  rw [refFrame, refGo_eq_subLoop _ _ 0 0 (Nat.zero_le _), Nat.sub_zero]
  exact frameLoop_eq_subLoop (delays c) (time % c.total_delay) 0 ht hd

/-- C1 witness: the theorem instantiated at the spec's own 3-frame
example cursor and `elapsed_ms = 449`. -/
theorem C1_frame_matches_reference_witness :
    wl_cursor_frame (mkCursor [100, 200, 150] 450) 449 =
      refFrame (delays (mkCursor [100, 200, 150] 450))
        (449 % (mkCursor [100, 200, 150] 450).total_delay) :=
  C1_frame_matches_reference (mkCursor [100, 200, 150] 450) 449
    (by decide) (by decide) (by decide) (by decide)

/-- C1 counterexample: a 2-frame cursor with delays `[0, 100]` (so
`total_delay = 100 > 0`).  At `elapsed_ms = 0` the code stops at the
zero-delay frame 0 (the wraparound test `t - 0 < t` is false), while the
spec's reference algorithm skips the empty window `[0, 0)` and returns
frame 1. -/
theorem C1_counterexample :
    1 < imageCount (mkCursor [0, 100] 100) ∧
    0 < (mkCursor [0, 100] 100).total_delay ∧
    wl_cursor_frame (mkCursor [0, 100] 100) 0 ≠
      refFrame (delays (mkCursor [0, 100] 100))
        (0 % (mkCursor [0, 100] 100).total_delay) := by decide

/-- C9: the spec's concrete frame-selection cases.  A 1-frame cursor
(any delay, any `total_delay` field) yields 0 at times 0, 1 and
1000000; the 3-frame cursor with delays `[100, 200, 150]` and
`total_delay = 450` yields 0, 1, 2, 0, 0 at times 0, 150, 449, 450,
900 respectively. -/
theorem C9_concrete_frames :
    (∀ dl td : Nat,
      wl_cursor_frame (mkCursor [dl] td) 0 = some 0 ∧
      wl_cursor_frame (mkCursor [dl] td) 1 = some 0 ∧
      wl_cursor_frame (mkCursor [dl] td) 1000000 = some 0) ∧
    wl_cursor_frame (mkCursor [100, 200, 150] 450) 0 = some 0 ∧
    wl_cursor_frame (mkCursor [100, 200, 150] 450) 150 = some 1 ∧
    wl_cursor_frame (mkCursor [100, 200, 150] 450) 449 = some 2 ∧
    wl_cursor_frame (mkCursor [100, 200, 150] 450) 450 = some 0 ∧
    wl_cursor_frame (mkCursor [100, 200, 150] 450) 900 = some 0 := by
  refine ⟨fun dl td => ⟨?_, ?_, ?_⟩, by decide, by decide, by decide,
    by decide, by decide⟩ <;>
    simp [wl_cursor_frame, imageCount, mkCursor]

/-- C10: for every cursor with at least one frame whose `total_delay`
and delays are as established by construction (`total_delay` is the
`uint32_t` sum of the representable frame delays) and, when there is
more than one frame, `total_delay > 0`, the frame walk stays inside the
frame array and returns an in-range index (and the modulo is never by
zero). -/
theorem C10_frame_index_in_bounds (c : cursor) (time : Nat)
    (hn : 1 ≤ imageCount c)
    (hd : ∀ d ∈ delays c, d < uint32Mod)
    (ht : c.total_delay = (delays c).sum % uint32Mod)
    (hpos : 1 < imageCount c → 0 < c.total_delay) :
    ∃ i, wl_cursor_frame c time = some i ∧ i < imageCount c := by
  by_cases h1 : imageCount c = 1
  · exact ⟨0, by rw [wl_cursor_frame, if_pos h1], by omega⟩
  · have h2 : 1 < imageCount c := by omega
    have h3 : 0 < c.total_delay := hpos h2
    have hlen : (delays c).length = imageCount c := List.length_map _ _
    have hM : c.total_delay < uint32Mod := by
      rw [ht]; exact Nat.mod_lt _ (by decide)
    have htm : time % c.total_delay < c.total_delay := Nat.mod_lt _ h3
    have hsum : time % c.total_delay < (delays c).sum := by
      have : c.total_delay ≤ (delays c).sum := ht ▸ Nat.mod_le _ _
      omega
    obtain ⟨j, hj1, hj2⟩ :=
      frameLoop_some_lt (delays c) (time % c.total_delay) 0 hd (by omega) hsum
    refine ⟨j, ?_, ?_⟩
    · rw [wl_cursor_frame, if_neg h1, if_neg (by omega)]; exact hj1
    · omega

/-- C10 witness: the theorem at a concrete 2-frame cursor with delays
`[100, 200]` and `total_delay = 300`, at `elapsed_ms = 5`. -/
theorem C10_frame_index_in_bounds_witness :
    ∃ i, wl_cursor_frame (mkCursor [100, 200] 300) 5 = some i ∧
      i < imageCount (mkCursor [100, 200] 300) :=
  C10_frame_index_in_bounds (mkCursor [100, 200] 300) 5
    (by decide) (by decide) (by decide) (by decide)

/-- `toInt32` is the identity on values below `2^31`. -/
theorem toInt32_of_lt (u : Nat) (h : u < 2147483648) :
    toInt32 u = Int.ofNat u := by
  unfold toInt32 uint32Mod
  rw [Nat.mod_eq_of_lt (by omega), if_pos h]
  rfl

/-- Evaluation of a growth-requiring allocate whose (possibly wrapped)
`unsigned int` request converts to a nonnegative `int` and whose
`ftruncate` succeeds: the pool is resized to the wrapped request. -/
theorem shm_pool_allocate_grow_eq (pool : shm_pool) (s : Nat)
    (htest : pool.size < (pool.used + s) % uint32Mod)
    (hreq : (2 * pool.size + s) % uint32Mod < 2147483648) :
    shm_pool_allocate pool s true =
      ⟨⟨(2 * pool.size + s) % uint32Mod, (pool.used + s) % uint32Mod,
        resizeData pool.data ((2 * pool.size + s) % uint32Mod)⟩,
       toInt32 pool.used, 1⟩ := by
  have h4 : 0 ≤ toInt32 (2 * pool.size + s) := by
    unfold toInt32
    rw [if_pos hreq]
    omega
  have h3 : (toInt32 (2 * pool.size + s)).toNat =
      (2 * pool.size + s) % uint32Mod := by
    unfold toInt32
    rw [if_pos hreq]
    omega
  unfold shm_pool_allocate shm_pool_resize
  rw [if_pos htest, if_pos ⟨rfl, h4⟩, h3]

/-- Evaluation of an allocate whose (unsigned) test says the request
fits: no resize, bump `used`. -/
theorem shm_pool_allocate_fit_eq (pool : shm_pool) (s : Nat)
    (hfit : (pool.used + s) % uint32Mod ≤ pool.size) :
    shm_pool_allocate pool s true =
      ⟨⟨pool.size, (pool.used + s) % uint32Mod, pool.data⟩,
       toInt32 pool.used, 0⟩ := by
  unfold shm_pool_allocate
  rw [if_neg (by omega)]

/-- Evaluation of a growth-requiring allocate whose `ftruncate` fails:
`-1` is returned and the pool is untouched. -/
theorem shm_pool_allocate_fail_eq (pool : shm_pool) (s : Nat)
    (htest : pool.size < (pool.used + s) % uint32Mod) :
    shm_pool_allocate pool s false = ⟨pool, -1, 1⟩ := by
  unfold shm_pool_allocate shm_pool_resize
  rw [if_pos htest, if_neg (by simp)]

/-- C2 counterexample: on `wrapPool` (capacity 2147395600 — creatable
by `wl_cursor_theme_load` with size 23170 —, `used = 2147300000`,
every byte written to 9) allocating `s = 176400` bytes satisfies the
claim's antecedent, yet the growth request `2*capacity + s =
4294967600` wraps to `304` in `unsigned int`; `ftruncate(fd, 304)`
succeeds, so the "successful" allocate (offset `used` is returned)
shrinks the pool to capacity 304 instead of `max(2c+s, c+s)` and
destroys the previously written byte at index 400. -/
theorem C2_counterexample :
    wrapPool.data.length = wrapPool.size ∧
    wrapPool.used ≤ wrapPool.size ∧
    0 < 176400 ∧
    wrapPool.size < wrapPool.used + 176400 ∧
    (shm_pool_allocate wrapPool 176400 true).resizes = 1 ∧
    (shm_pool_allocate wrapPool 176400 true).offset =
      Int.ofNat wrapPool.used ∧
    (shm_pool_allocate wrapPool 176400 true).pool.size = 304 ∧
    (shm_pool_allocate wrapPool 176400 true).pool.size ≠
      max (wrapPool.size * 2 + 176400) (wrapPool.size + 176400) ∧
    wrapPool.data[400]? = some 9 ∧
    (shm_pool_allocate wrapPool 176400 true).pool.data[400]? = none := by
  have e := shm_pool_allocate_grow_eq wrapPool 176400 (by decide) (by decide)
  rw [e]
  refine ⟨?_, by decide, by decide, by decide, rfl,
    by decide, by decide, by decide, ?_, ?_⟩
  · show (List.replicate 2147395600 9).length = wrapPool.size
    rw [List.length_replicate]
    rfl
  · show (List.replicate 2147395600 9)[400]? = some 9
    rw [List.getElem?_replicate]
    norm_num
  · show (resizeData wrapPool.data
        ((2 * wrapPool.size + 176400) % uint32Mod))[400]? = none
    rw [show wrapPool.data = List.replicate 2147395600 9 from rfl,
      show (2 * wrapPool.size + 176400) % uint32Mod = 304 from by decide]
    apply List.getElem?_eq_none
    rw [resizeData, List.length_append, List.length_take,
      List.length_replicate, List.length_replicate]
    omega

/-- C2 (amended): an allocation that does not fit (`used + s >
capacity`), whose growth request `2*capacity + s` stays below `2^31`
(so the `unsigned int` computation neither wraps nor turns negative as
the `int` handed to `ftruncate`), and whose backing resize succeeds,
performs exactly one resize, the new capacity is
`max(capacity*2 + s, capacity + s)` (= `2*capacity + s`), the
allocation succeeds at offset `used`, and all bytes of the
already-handed-out prefix `[0, used)` are preserved. -/
theorem C2_grow_allocate (pool : shm_pool) (s : Nat)
    (hwf : pool.data.length = pool.size) (hused : pool.used ≤ pool.size)
    (hpos : 0 < s) (hover : pool.size < pool.used + s)
    (hbound : 2 * pool.size + s < 2147483648) :
    (shm_pool_allocate pool s true).resizes = 1 ∧
    (shm_pool_allocate pool s true).pool.size =
      max (pool.size * 2 + s) (pool.size + s) ∧
    (shm_pool_allocate pool s true).offset = Int.ofNat pool.used ∧
    (shm_pool_allocate pool s true).pool.used = pool.used + s ∧
    ∀ i, i < pool.used →
      (shm_pool_allocate pool s true).pool.data[i]? = pool.data[i]? := by
  have hm1 : (pool.used + s) % uint32Mod = pool.used + s :=
    Nat.mod_eq_of_lt (by unfold uint32Mod; omega)
  have hm2 : (2 * pool.size + s) % uint32Mod = 2 * pool.size + s :=
    Nat.mod_eq_of_lt (by unfold uint32Mod; omega)
  have e := shm_pool_allocate_grow_eq pool s
    (by rw [hm1]; exact hover) (by rw [hm2]; exact hbound)
  rw [hm1, hm2] at e
  rw [e]
  refine ⟨rfl, by show 2 * pool.size + s = _; omega,
    toInt32_of_lt _ (by omega), rfl, ?_⟩
  intro i hi
  show (resizeData pool.data (2 * pool.size + s))[i]? = pool.data[i]?
  rw [resizeData, List.take_of_length_le (by omega)]
  exact List.getElem?_append_left (by omega)

/-- C2 witness: a pool of capacity 4 with 2 bytes used and contents
`[9, 9, 0, 0]`; allocating 5 bytes resizes once to 13 = max(13, 9) and
keeps the previously written byte at index 1. -/
theorem C2_grow_allocate_witness :
    (shm_pool_allocate ⟨4, 2, [9, 9, 0, 0]⟩ 5 true).resizes = 1 ∧
    (shm_pool_allocate ⟨4, 2, [9, 9, 0, 0]⟩ 5 true).pool.size =
      max (4 * 2 + 5) (4 + 5) ∧
    (shm_pool_allocate ⟨4, 2, [9, 9, 0, 0]⟩ 5 true).pool.data[1]? =
      ([9, 9, 0, 0] : List Nat)[1]? := by
  have h := C2_grow_allocate ⟨4, 2, [9, 9, 0, 0]⟩ 5
    (by decide) (by decide) (by decide) (by decide) (by decide)
  exact ⟨h.1, h.2.1, h.2.2.2.2 1 (by decide)⟩

/-- C6: when the code's growth test fires (the `unsigned int`
comparison `used + s > capacity` at wayland-cursor.c:98, which agrees
with exact arithmetic whenever `used + s < 2^32`, in particular for
every int-representable request on an in-range pool) and the backing
`ftruncate` fails, the allocate returns `-1` and the pool's capacity
and `used` (indeed the whole pool state) are unchanged. -/
theorem C6_resize_failure_pool_unchanged (pool : shm_pool) (s : Nat)
    (hover : pool.size < (pool.used + s) % uint32Mod) :
    (shm_pool_allocate pool s false).offset = -1 ∧
    (shm_pool_allocate pool s false).pool = pool := by
  rw [shm_pool_allocate_fail_eq pool s hover]
  exact ⟨rfl, rfl⟩

/-- C6 witness: the theorem at a pool of capacity 4 with 2 bytes used
and a 5-byte request. -/
theorem C6_resize_failure_pool_unchanged_witness :
    (shm_pool_allocate ⟨4, 2, [0, 0, 0, 0]⟩ 5 false).offset = -1 ∧
    (shm_pool_allocate ⟨4, 2, [0, 0, 0, 0]⟩ 5 false).pool =
      ⟨4, 2, [0, 0, 0, 0]⟩ :=
  C6_resize_failure_pool_unchanged ⟨4, 2, [0, 0, 0, 0]⟩ 5 (by decide)

/-- A successful allocate on an in-range pool (`used ≤ size < 2^31`)
whose step does not overflow (it fits, or its growth request stays
below `2^31`) returns offset `used`, advances `used` by `s`, and
keeps `used ≤ size < 2^31`. -/
theorem shm_pool_allocate_true (pool : shm_pool) (s : Nat)
    (h : pool.used ≤ pool.size) (hsize : pool.size < 2147483648)
    (h2 : pool.used + s ≤ pool.size ∨ 2 * pool.size + s < 2147483648) :
    (shm_pool_allocate pool s true).offset = Int.ofNat pool.used ∧
    (shm_pool_allocate pool s true).pool.used = pool.used + s ∧
    (shm_pool_allocate pool s true).pool.used ≤
      (shm_pool_allocate pool s true).pool.size ∧
    (shm_pool_allocate pool s true).pool.size < 2147483648 := by
  have hm1 : (pool.used + s) % uint32Mod = pool.used + s :=
    Nat.mod_eq_of_lt (by unfold uint32Mod; omega)
  by_cases hc : pool.used + s ≤ pool.size
  · rw [shm_pool_allocate_fit_eq pool s (by rw [hm1]; exact hc)]
    exact ⟨toInt32_of_lt _ (by omega), hm1,
      by rw [hm1]; exact hc, hsize⟩
  · have hreq : 2 * pool.size + s < 2147483648 := by
      rcases h2 with h2 | h2
      · omega
      · exact h2
    have hm2 : (2 * pool.size + s) % uint32Mod = 2 * pool.size + s :=
      Nat.mod_eq_of_lt (by unfold uint32Mod; omega)
    rw [shm_pool_allocate_grow_eq pool s
      (by rw [hm1]; omega) (by rw [hm2]; exact hreq)]
    refine ⟨toInt32_of_lt _ (by omega), hm1, ?_, ?_⟩
    · show (pool.used + s) % uint32Mod ≤ (2 * pool.size + s) % uint32Mod
      rw [hm1, hm2]
      omega
    · show (2 * pool.size + s) % uint32Mod < 2147483648
      rw [hm2]
      exact hreq

/-- Specification of a run of successful, non-overflowing allocations:
the final `used` is the initial `used` plus the sum of the sizes, the
invariant `used ≤ size` is maintained, and the `k`-th returned offset
is the initial `used` plus the sum of the first `k` sizes. -/
theorem allocSeq_spec (sizes : List Nat) :
    ∀ pool : shm_pool, pool.used ≤ pool.size →
      pool.size < 2147483648 → noWrapSeq pool sizes = true →
      (allocSeq pool sizes).1.used = pool.used + sizes.sum ∧
      (allocSeq pool sizes).1.used ≤ (allocSeq pool sizes).1.size ∧
      ∀ k, k < sizes.length →
        (allocSeq pool sizes).2[k]? =
          some (Int.ofNat (pool.used + (sizes.take k).sum)) := by
  induction sizes with
  | nil =>
    intro pool h _ _
    refine ⟨by simp [allocSeq], by simpa [allocSeq] using h, ?_⟩
    intro k hk
    simp at hk
  | cons s rest ih =>
    intro pool h hs hw
    have hw1 : pool.used + s ≤ pool.size ∨
        2 * pool.size + s < 2147483648 := by
      simp only [noWrapSeq, Bool.and_eq_true, Bool.or_eq_true,
        decide_eq_true_eq] at hw
      exact hw.1
    have hw2 : noWrapSeq (shm_pool_allocate pool s true).pool rest = true := by
      simp only [noWrapSeq, Bool.and_eq_true] at hw
      exact hw.2
    have ha := shm_pool_allocate_true pool s h hs hw1
    have hrec := ih (shm_pool_allocate pool s true).pool
      (by omega) ha.2.2.2 hw2
    simp only [allocSeq]
    refine ⟨?_, hrec.2.1, ?_⟩
    · rw [hrec.1, ha.2.1, List.sum_cons]
      omega
    · intro k hk
      match k with
      | 0 =>
        simp only [List.getElem?_cons_zero, List.take_zero, List.sum_nil,
          Nat.add_zero]
        rw [ha.1]
      | Nat.succ k' =>
        simp only [List.getElem?_cons_succ, List.take_succ_cons,
          List.sum_cons]
        rw [hrec.2.2 k' (by simpa using hk), ha.2.1]
        congr 2
        omega

/-- `noWrapSeq` restricts to prefixes of the run. -/
theorem noWrapSeq_take (sizes : List Nat) :
    ∀ (pool : shm_pool) (k : Nat), noWrapSeq pool sizes = true →
      noWrapSeq pool (sizes.take k) = true := by
  induction sizes with
  | nil =>
    intro pool k _
    rw [List.take_nil]
    rfl
  | cons s rest ih =>
    intro pool k hw
    match k with
    | 0 => rfl
    | Nat.succ k' =>
      rw [List.take_succ_cons]
      simp only [noWrapSeq, Bool.and_eq_true] at hw ⊢
      exact ⟨hw.1, ih _ k' hw.2⟩

/-- Prefix sums of a list of naturals are monotone in the prefix
length. -/
theorem sum_take_mono (l : List Nat) (a b : Nat) (hab : a ≤ b) :
    (l.take a).sum ≤ (l.take b).sum := by
  have h1 : (l.take b).take a = l.take a := by
    rw [List.take_take, Nat.min_eq_left hab]
  calc (l.take a).sum = ((l.take b).take a).sum := by rw [h1]
    _ ≤ ((l.take b).take a).sum + ((l.take b).drop a).sum :=
        Nat.le_add_right _ _
    _ = (l.take b).sum := by rw [← List.sum_append, List.take_append_drop]

/-- Extending a prefix by one element adds that element to its sum. -/
theorem sum_take_succ_of_lt (l : List Nat) (k : Nat) (hk : k < l.length) :
    (l.take (k + 1)).sum = (l.take k).sum + l.getD k 0 := by
  rw [List.take_succ, List.sum_append, List.getElem?_eq_getElem hk]
  simp [List.getD, List.getElem?_eq_getElem hk]

/-- C3 counterexample: on a freshly created pool of capacity
`2147395600` (exactly what `wl_cursor_theme_load` creates for size
23170), the two successful positive allocations `[2147300000, 176400]`
(offsets 0 and 2147300000 are returned, no failure) end with
`used = 2147476400` but capacity `304`: the second allocation's growth
request wraps to 304 in `unsigned int`, the pool shrinks, and the
claimed invariant `used ≤ capacity` fails. -/
theorem C3_counterexample :
    (∀ s ∈ [2147300000, 176400], 0 < s) ∧
    (allocSeq (shm_pool_create 2147395600) [2147300000, 176400]).2 =
      [0, 2147300000] ∧
    (allocSeq (shm_pool_create 2147395600) [2147300000, 176400]).1.used =
      2147476400 ∧
    (allocSeq (shm_pool_create 2147395600) [2147300000, 176400]).1.size =
      304 ∧
    ¬ ((allocSeq (shm_pool_create 2147395600)
          [2147300000, 176400]).1.used ≤
       (allocSeq (shm_pool_create 2147395600)
          [2147300000, 176400]).1.size) := by
  have p1 : (shm_pool_allocate (shm_pool_create 2147395600)
      2147300000 true).pool =
      ⟨2147395600, 2147300000, List.replicate 2147395600 0⟩ := by
    rw [shm_pool_allocate_fit_eq _ _ (by decide),
      show ((shm_pool_create 2147395600).used + 2147300000) % uint32Mod =
        2147300000 from by decide]
    rfl
  have o1 : (shm_pool_allocate (shm_pool_create 2147395600)
      2147300000 true).offset = 0 := by
    rw [shm_pool_allocate_fit_eq _ _ (by decide)]
    decide
  have e2 := shm_pool_allocate_grow_eq
    (⟨2147395600, 2147300000, List.replicate 2147395600 0⟩ : shm_pool)
    176400 (by decide) (by decide)
  have u2 : (shm_pool_allocate
      (⟨2147395600, 2147300000, List.replicate 2147395600 0⟩ : shm_pool)
      176400 true).pool.used = 2147476400 := by
    rw [e2]; decide
  have s2 : (shm_pool_allocate
      (⟨2147395600, 2147300000, List.replicate 2147395600 0⟩ : shm_pool)
      176400 true).pool.size = 304 := by
    rw [e2]; decide
  have o2 : (shm_pool_allocate
      (⟨2147395600, 2147300000, List.replicate 2147395600 0⟩ : shm_pool)
      176400 true).offset = 2147300000 := by
    rw [e2]; decide
  refine ⟨by decide, ?_, ?_, ?_, ?_⟩
  · show (shm_pool_allocate (shm_pool_create 2147395600)
        2147300000 true).offset ::
      (shm_pool_allocate (shm_pool_allocate (shm_pool_create 2147395600)
          2147300000 true).pool 176400 true).offset :: [] =
      [0, 2147300000]
    rw [o1, p1, o2]
  · show (shm_pool_allocate (shm_pool_allocate (shm_pool_create 2147395600)
        2147300000 true).pool 176400 true).pool.used = 2147476400
    rw [p1, u2]
  · show (shm_pool_allocate (shm_pool_allocate (shm_pool_create 2147395600)
        2147300000 true).pool 176400 true).pool.size = 304
    rw [p1, s2]
  · show ¬ ((shm_pool_allocate (shm_pool_allocate
          (shm_pool_create 2147395600) 2147300000 true).pool
            176400 true).pool.used ≤
        (shm_pool_allocate (shm_pool_allocate
          (shm_pool_create 2147395600) 2147300000 true).pool
            176400 true).pool.size)
    rw [p1, u2, s2]
    omega

/-- C3 (amended): on a freshly created pool of int-representable
capacity, a run of successful allocations with positive sizes in which
no step overflows the 32-bit pool arithmetic (each allocation fits or
its growth request `2*capacity + s` stays below `2^31`) has `used`
equal to the sum of the first `k` sizes after the `k`-th allocation,
maintains `used ≤ capacity` throughout, and the returned ranges
`[offset_k, offset_k + s_k)` are pairwise disjoint. -/
theorem C3_alloc_sequence (sizes : List Nat) (c : Nat)
    (hpos : ∀ s ∈ sizes, 0 < s) (hc : c < 2147483648)
    (hwrap : noWrapSeq (shm_pool_create c) sizes = true) :
    (∀ k, k ≤ sizes.length →
        (allocSeq (shm_pool_create c) (sizes.take k)).1.used =
          (sizes.take k).sum ∧
        (allocSeq (shm_pool_create c) (sizes.take k)).1.used ≤
          (allocSeq (shm_pool_create c) (sizes.take k)).1.size) ∧
    (∀ i j, i < sizes.length → j < sizes.length → i ≠ j →
        ∃ oi oj : Nat,
          (allocSeq (shm_pool_create c) sizes).2[i]? =
            some (Int.ofNat oi) ∧
          (allocSeq (shm_pool_create c) sizes).2[j]? =
            some (Int.ofNat oj) ∧
          (oi + sizes.getD i 0 ≤ oj ∨ oj + sizes.getD j 0 ≤ oi)) := by
  have hfresh : (shm_pool_create c).used ≤ (shm_pool_create c).size :=
    Nat.zero_le _
  have hcs : (shm_pool_create c).size < 2147483648 := hc
  have h0 : (shm_pool_create c).used = 0 := rfl
  constructor
  · intro k _
    have h := allocSeq_spec (sizes.take k) (shm_pool_create c) hfresh hcs
      (noWrapSeq_take sizes _ k hwrap)
    exact ⟨by rw [h.1, h0, Nat.zero_add], h.2.1⟩
  · intro i j hi hj hij
    have h := allocSeq_spec sizes (shm_pool_create c) hfresh hcs hwrap
    refine ⟨(sizes.take i).sum, (sizes.take j).sum, ?_, ?_, ?_⟩
    · simpa [h0] using h.2.2 i hi
    · simpa [h0] using h.2.2 j hj
    · rcases Nat.lt_or_ge i j with hlt | hge
      · left
        rw [← sum_take_succ_of_lt sizes i hi]
        exact sum_take_mono sizes (i + 1) j hlt
      · right
        have hlt : j < i := by omega
        rw [← sum_take_succ_of_lt sizes j hj]
        exact sum_take_mono sizes (j + 1) i hlt

/-- C3 witness: three allocations `[3, 5, 2]` on a fresh pool of
capacity 4: `used` after the second allocation is `3 + 5`, and the
first two returned ranges are disjoint. -/
theorem C3_alloc_sequence_witness :
    (allocSeq (shm_pool_create 4) ([3, 5, 2].take 2)).1.used =
      ([3, 5, 2].take 2).sum ∧
    (∃ oi oj : Nat,
      (allocSeq (shm_pool_create 4) [3, 5, 2]).2[0]? =
        some (Int.ofNat oi) ∧
      (allocSeq (shm_pool_create 4) [3, 5, 2]).2[1]? =
        some (Int.ofNat oj) ∧
      (oi + [3, 5, 2].getD 0 0 ≤ oj ∨ oj + [3, 5, 2].getD 1 0 ≤ oi)) := by
  have h := C3_alloc_sequence [3, 5, 2] 4 (by decide) (by decide) (by decide)
  exact ⟨(h.1 2 (by decide)).1, h.2 0 1 (by decide) (by decide) (by decide)⟩

/-- The built `total_delay` is the `uint32_t` sum of the frame delays,
continued from any representable accumulator. -/
theorem buildImages_total (imgs : List XcursorImage) :
    ∀ (pool : shm_pool) (ok : Nat → Bool) (idx t0 : Nat), t0 < uint32Mod →
      (buildImages pool imgs ok idx t0).2.1 =
        (t0 + (imgs.map fun im => im.delay).sum) % uint32Mod := by
  induction imgs with
  | nil =>
    intro pool ok idx t0 h
    simp [buildImages, Nat.mod_eq_of_lt h]
  | cons im rest ih =>
    intro pool ok idx t0 h
    simp only [buildImages]
    rw [ih _ ok (idx + 1) _ (Nat.mod_lt _ (by decide))]
    rw [Nat.mod_add_mod, List.map_cons, List.sum_cons]
    congr 1
    omega

/-- The frame metadata of a built cursor is copied verbatim from the
loader's report, independently of the pool state. -/
theorem buildImages_meta (imgs : List XcursorImage) :
    ∀ (pool : shm_pool) (ok : Nat → Bool) (idx t0 : Nat),
      ((buildImages pool imgs ok idx t0).1.map fun ci =>
          (ci.image.width, ci.image.height, ci.image.hotspot_x,
           ci.image.hotspot_y, ci.image.delay)) =
        imgs.map fun im => (im.width, im.height, im.xhot, im.yhot, im.delay) := by
  induction imgs with
  | nil => intro pool ok idx t0; rfl
  | cons im rest ih =>
    intro pool ok idx t0
    simp only [buildImages, List.map_cons]
    rw [ih]

/-- The built cursor carries the report's name. -/
theorem create_name (images : XcursorImages) (pool : shm_pool)
    (ok : Nat → Bool) :
    (wl_cursor_create_from_xcursor_images images pool ok).1.cursor.name =
      images.name := rfl

/-- The built cursor's frame metadata equals the report's. -/
theorem create_frameMeta (images : XcursorImages) (pool : shm_pool)
    (ok : Nat → Bool) :
    frameMeta (wl_cursor_create_from_xcursor_images images pool ok).1 =
      reportMeta images := by
  have h : frameMeta (wl_cursor_create_from_xcursor_images images pool ok).1 =
      ((buildImages pool images.images ok 0 0).1.map fun ci =>
        (ci.image.width, ci.image.height, ci.image.hotspot_x,
         ci.image.hotspot_y, ci.image.delay)) := rfl
  rw [h, buildImages_meta, reportMeta]

/-- C4 exhibit (the claim is a code bug): a theme whose 4-byte pool
cannot hold the report's single 16-byte frame with the resize failing.
`shm_pool_allocate` returns `-1`, but the loader never checks it: the
cursor is built with `offset = -1` (the subsequent `memcpy` writes out
of bounds) and `load_callback` still links it into the theme,
incrementing `cursor_count` — the claim says the cursor must be
abandoned and the theme left unchanged. -/
theorem C4_failed_allocation_still_linked :
    (load_callback failReport failTheme (fun _ => false)).cursor_count =
      failTheme.cursor_count + 1 ∧
    ((load_callback failReport failTheme (fun _ => false)).cursors.map
        fun c => (c.cursor.name, c.cursor.images.map fun ci => ci.offset)) =
      [("left_ptr", [-1])] := by decide

/-- C5 counterexample: the loader may report a multi-frame cursor whose
frames all declare delay 0; construction then yields `image_count = 2`
with `total_delay = 0`, refuting the claim that more than one frame
forces `total_delay > 0`. -/
theorem C5_counterexample :
    1 < imageCount (wl_cursor_create_from_xcursor_images zeroDelayImages
        (shm_pool_create 16) (fun _ => true)).1 ∧
    (wl_cursor_create_from_xcursor_images zeroDelayImages
        (shm_pool_create 16) (fun _ => true)).1.total_delay = 0 := by decide

/-- C5 (amended): a cursor constructed during theme load has
`total_delay > 0` provided at least one of its frames declares a
positive delay and the delays sum to less than `2^32` (so the
`uint32_t` accumulation does not wrap to zero). -/
theorem C5_total_delay_pos (imgs : XcursorImages) (pool : shm_pool)
    (ok : Nat → Bool)
    (h2 : ∃ im ∈ imgs.images, 0 < im.delay)
    (h3 : (imgs.images.map fun im => im.delay).sum < uint32Mod) :
    0 < (wl_cursor_create_from_xcursor_images imgs pool ok).1.total_delay := by
  have e : (wl_cursor_create_from_xcursor_images imgs pool ok).1.total_delay =
      (buildImages pool imgs.images ok 0 0).2.1 := rfl
  rw [e, buildImages_total imgs.images pool ok 0 0 (by decide),
    Nat.zero_add, Nat.mod_eq_of_lt h3]
  obtain ⟨im, hmem, hpos⟩ := h2
  have hmm : im.delay ∈ imgs.images.map fun im => im.delay :=
    List.mem_map_of_mem _ hmem
  exact lt_of_lt_of_le hpos
    (List.single_le_sum (fun x _ => Nat.zero_le x) _ hmm)

/-- C5 witness: the amended theorem at a 2-frame report with delays
`[0, 7]`. -/
theorem C5_total_delay_pos_witness :
    0 < (wl_cursor_create_from_xcursor_images
        ⟨"watch", [⟨1, 1, 0, 0, 0, [0, 0, 0, 0]⟩,
                   ⟨1, 1, 0, 0, 7, [0, 0, 0, 0]⟩]⟩
        (shm_pool_create 16) (fun _ => true)).1.total_delay :=
  C5_total_delay_pos
    ⟨"watch", [⟨1, 1, 0, 0, 0, [0, 0, 0, 0]⟩, ⟨1, 1, 0, 0, 7, [0, 0, 0, 0]⟩]⟩
    (shm_pool_create 16) (fun _ => true) (by decide) (by decide)

/-- C7: on an image with no cached buffer, `get_buffer` issues exactly
one creation request and caches the handle; a second call returns the
identical handle, issues no request, and leaves the image unchanged. -/
theorem C7_get_buffer_idempotent (img : cursor_image) (next : Nat)
    (h : img.buffer = none) :
    (wl_cursor_image_get_buffer img next).created = 1 ∧
    (wl_cursor_image_get_buffer img next).image.buffer =
      some (wl_cursor_image_get_buffer img next).buffer ∧
    (wl_cursor_image_get_buffer (wl_cursor_image_get_buffer img next).image
        (wl_cursor_image_get_buffer img next).nextHandle).buffer =
      (wl_cursor_image_get_buffer img next).buffer ∧
    (wl_cursor_image_get_buffer (wl_cursor_image_get_buffer img next).image
        (wl_cursor_image_get_buffer img next).nextHandle).created = 0 ∧
    (wl_cursor_image_get_buffer (wl_cursor_image_get_buffer img next).image
        (wl_cursor_image_get_buffer img next).nextHandle).image =
      (wl_cursor_image_get_buffer img next).image := by
  simp [wl_cursor_image_get_buffer, h]

/-- C7 witness: the theorem at a concrete fresh image and service
counter 5. -/
theorem C7_get_buffer_idempotent_witness :
    (wl_cursor_image_get_buffer ⟨⟨1, 1, 0, 0, 0⟩, none, 0⟩ 5).created = 1 ∧
    (wl_cursor_image_get_buffer ⟨⟨1, 1, 0, 0, 0⟩, none, 0⟩ 5).image.buffer =
      some (wl_cursor_image_get_buffer ⟨⟨1, 1, 0, 0, 0⟩, none, 0⟩ 5).buffer ∧
    (wl_cursor_image_get_buffer
        (wl_cursor_image_get_buffer ⟨⟨1, 1, 0, 0, 0⟩, none, 0⟩ 5).image
        (wl_cursor_image_get_buffer ⟨⟨1, 1, 0, 0, 0⟩, none, 0⟩ 5).nextHandle).buffer =
      (wl_cursor_image_get_buffer ⟨⟨1, 1, 0, 0, 0⟩, none, 0⟩ 5).buffer ∧
    (wl_cursor_image_get_buffer
        (wl_cursor_image_get_buffer ⟨⟨1, 1, 0, 0, 0⟩, none, 0⟩ 5).image
        (wl_cursor_image_get_buffer ⟨⟨1, 1, 0, 0, 0⟩, none, 0⟩ 5).nextHandle).created = 0 ∧
    (wl_cursor_image_get_buffer
        (wl_cursor_image_get_buffer ⟨⟨1, 1, 0, 0, 0⟩, none, 0⟩ 5).image
        (wl_cursor_image_get_buffer ⟨⟨1, 1, 0, 0, 0⟩, none, 0⟩ 5).nextHandle).image =
      (wl_cursor_image_get_buffer ⟨⟨1, 1, 0, 0, 0⟩, none, 0⟩ 5).image :=
  C7_get_buffer_idempotent ⟨⟨1, 1, 0, 0, 0⟩, none, 0⟩ 5 rfl

/-- Unfolding the loader fold one report at a time. -/
theorem xcursor_load_theme_cons (r : XcursorImages)
    (rest : List XcursorImages) (th : wl_cursor_theme) :
    xcursor_load_theme (r :: rest) th =
      xcursor_load_theme rest (load_callback r th (fun _ => true)) := rfl

/-- Once a theme holds a cursor named `n`, delivering any further
reports leaves the set of `n`-named cursors unchanged (same-name
reports are discarded, other reports append other names). -/
theorem loadAll_preserve (reports : List XcursorImages) (n : String) :
    ∀ th : wl_cursor_theme, (∃ c ∈ th.cursors, c.cursor.name = n) →
      (xcursor_load_theme reports th).cursors.filter
          (fun c => c.cursor.name == n) =
        th.cursors.filter (fun c => c.cursor.name == n) := by
  induction reports with
  | nil => intro th _; rfl
  | cons r rest ih =>
    intro th hex
    rw [xcursor_load_theme_cons]
    cases hfind : wl_cursor_theme_get_cursor th r.name with
    | some c0 =>
      have hth : load_callback r th (fun _ => true) = th := by
        rw [load_callback, hfind]
      rw [hth]
      exact ih th hex
    | none =>
      have hall : ∀ c ∈ th.cursors, ¬ (c.cursor.name == r.name) = true := by
        rw [wl_cursor_theme_get_cursor, List.find?_eq_none] at hfind
        exact hfind
      obtain ⟨cn, hcn, hname⟩ := hex
      have hne : r.name ≠ n := by
        intro he
        exact hall cn hcn (by simp [hname, he])
      have hth : (load_callback r th (fun _ => true)).cursors =
          th.cursors ++
            [(wl_cursor_create_from_xcursor_images r th.pool
                (fun _ => true)).1] := by
        rw [load_callback, hfind]
      have hex' : ∃ c ∈ (load_callback r th (fun _ => true)).cursors,
          c.cursor.name = n := ⟨cn, by rw [hth]; exact List.mem_append_left _ hcn, hname⟩
      rw [ih _ hex', hth, List.filter_append]
      have : ((wl_cursor_create_from_xcursor_images r th.pool
          (fun _ => true)).1.cursor.name == n) = false := by
        rw [create_name]
        simp [hne]
      simp [List.filter, this]

/-- First writer wins: starting from a theme with no `n`-named cursor,
after all reports are delivered the `n`-named cursors are exactly one
cursor built (name and frame metadata) from the first report named `n`. -/
theorem loadAll_first_wins (reports : List XcursorImages) (n : String) :
    ∀ th : wl_cursor_theme,
      th.cursors.filter (fun c => c.cursor.name == n) = [] →
      (∃ r ∈ reports, r.name = n) →
      ∃ c fr, reports.find? (fun r => r.name == n) = some fr ∧
        (xcursor_load_theme reports th).cursors.filter
            (fun c => c.cursor.name == n) = [c] ∧
        c.cursor.name = n ∧ frameMeta c = reportMeta fr := by
  induction reports with
  | nil => intro th _ hex; simp at hex
  | cons r rest ih =>
    intro th hempty hex
    have hnone : ∀ c ∈ th.cursors, ¬ (c.cursor.name == n) = true :=
      List.filter_eq_nil_iff.mp hempty
    by_cases hr : r.name = n
    · have hfind : wl_cursor_theme_get_cursor th r.name = none := by
        rw [wl_cursor_theme_get_cursor, List.find?_eq_none]
        intro c hc
        rw [hr]
        exact hnone c hc
      have hth : (load_callback r th (fun _ => true)).cursors =
          th.cursors ++
            [(wl_cursor_create_from_xcursor_images r th.pool
                (fun _ => true)).1] := by
        rw [load_callback, hfind]
      set newc := (wl_cursor_create_from_xcursor_images r th.pool
        (fun _ => true)).1 with hnewc
      have hnn : newc.cursor.name = n := by rw [hnewc, create_name, hr]
      have hfilter : (load_callback r th (fun _ => true)).cursors.filter
          (fun c => c.cursor.name == n) = [newc] := by
        rw [hth, List.filter_append, hempty]
        simp [List.filter, hnn]
      have hex' : ∃ c ∈ (load_callback r th (fun _ => true)).cursors,
          c.cursor.name = n := ⟨newc, by rw [hth]; simp, hnn⟩
      refine ⟨newc, r, ?_, ?_, hnn, ?_⟩
      · exact List.find?_cons_of_pos _ (by simp [hr])
      · rw [xcursor_load_theme_cons, loadAll_preserve rest n _ hex', hfilter]
      · rw [hnewc]; exact create_frameMeta r th.pool _
    · have hex2 : ∃ r' ∈ rest, r'.name = n := by
        rcases hex with ⟨r', hm, he⟩
        rcases List.mem_cons.mp hm with h | h
        · exact absurd (h ▸ he) hr
        · exact ⟨r', h, he⟩
      have hempty' : (load_callback r th (fun _ => true)).cursors.filter
          (fun c => c.cursor.name == n) = [] := by
        cases hfind : wl_cursor_theme_get_cursor th r.name with
        | some c0 =>
          have hth : load_callback r th (fun _ => true) = th := by
            rw [load_callback, hfind]
          rw [hth]; exact hempty
        | none =>
          have hth : (load_callback r th (fun _ => true)).cursors =
              th.cursors ++
                [(wl_cursor_create_from_xcursor_images r th.pool
                    (fun _ => true)).1] := by
            rw [load_callback, hfind]
          rw [hth, List.filter_append, hempty]
          have : ((wl_cursor_create_from_xcursor_images r th.pool
              (fun _ => true)).1.cursor.name == n) = false := by
            rw [create_name]; simp [hr]
          simp [List.filter, this]
      obtain ⟨c, fr, h1, h2, h3, h4⟩ :=
        ih (load_callback r th (fun _ => true)) hempty' hex2
      refine ⟨c, fr, ?_, ?_, h3, h4⟩
      · rw [List.find?_cons_of_neg _ (by simp [hr])]
        exact h1
      · rw [xcursor_load_theme_cons]
        exact h2

/-- C8: if the loader reports the same cursor name two or more times
during a theme load, the final theme contains exactly one cursor of
that name, and its name and frame metadata come from the first report
of that name; later same-name reports are discarded. -/
theorem C8_dedup_first_wins (nm : String) (sz : Nat)
    (reports : List XcursorImages) (n : String)
    (hdup : 2 ≤ (reports.filter fun r => r.name == n).length) :
    ∃ c fr, reports.find? (fun r => r.name == n) = some fr ∧
      (themeAfterLoad nm sz reports).cursors.filter
          (fun c => c.cursor.name == n) = [c] ∧
      c.cursor.name = n ∧ frameMeta c = reportMeta fr := by
  have hex : ∃ r ∈ reports, r.name = n := by
    have hne : (reports.filter fun r => r.name == n) ≠ [] := by
      intro he
      rw [he] at hdup
      simp at hdup
    obtain ⟨x, hx⟩ := List.exists_mem_of_ne_nil _ hne
    have hx2 := List.mem_filter.mp hx
    exact ⟨x, hx2.1, by simpa using hx2.2⟩
  exact loadAll_first_wins reports n _ rfl hex

/-- C8 witness: two same-named reports `repA`, `repB`; the theme keeps
exactly one `"left_ptr"` cursor, built from `repA`. -/
theorem C8_dedup_first_wins_witness :
    ∃ c fr, [repA, repB].find? (fun r => r.name == "left_ptr") = some fr ∧
      (themeAfterLoad "default" 1 [repA, repB]).cursors.filter
          (fun c => c.cursor.name == "left_ptr") = [c] ∧
      c.cursor.name = "left_ptr" ∧ frameMeta c = reportMeta fr :=
  C8_dedup_first_wins "default" 1 [repA, repB] "left_ptr" (by decide)
